import Mathlib

/-!
# Verification of the miniclap argument parser (src/index.ts)

A shallow embedding of the miniclap library: the shell-like tokenizer
`split`, the schema preparation pass (alias collection, help rendering and
the in-place normalization of `param.long`), and the matcher/resolver that
layers defaults, short aliases, long aliases and positional tokens into a
typed result or an accumulated error report.

JavaScript strings are modelled as Lean `String`/`List Char`; JavaScript
objects used as maps are modelled as insertion-ordered association lists;
JavaScript truthiness is modelled explicitly.  The external raw splitter
(the `minimist` dependency, which is not part of this repository) is
modelled from the specification's collaborator contract.
-/

set_option maxRecDepth 4096

/-! ## Character constants used by the tokenizer -/

def spaceChar : Char := Char.ofNat 32

def tabChar : Char := Char.ofNat 9

def squoteChar : Char := Char.ofNat 39

def dquoteChar : Char := Char.ofNat 34

def bslashChar : Char := Char.ofNat 92

def dashChar : Char := Char.ofNat 45

def eqChar : Char := Char.ofNat 61

/-! ## JavaScript values -/

/-- The runtime values flowing through the parser: raw splitter entries,
coerced argument values and the contents of the result record.  `undef`
models JavaScript `undefined` (line 272 tests `args[key] === undefined`). -/
inductive Value where
  | undef : Value
  | str : String → Value
  | bool : Bool → Value
  | int : Int → Value
deriving DecidableEq, Repr

/-- JavaScript truthiness of a value (used by `!!arg` at line 213 and
`args[key] ||= val` at line 255). -/
def Value.truthy : Value → Bool
  | .undef => false
  | .str s => if s = "" then false else true
  | .bool b => b
  | .int n => if n = 0 then false else true

/-- Truthiness of a possibly-absent value (`undefined` when the key is
missing from the object). -/
def truthyO (v : Option Value) : Bool :=
  match v with
  | some v => v.truthy
  | Option.none => false

/-- The typed coercion failure of the library (class `ParseError`). -/
structure ParseError where
  message : String
deriving DecidableEq, Repr

/-! ## Insertion-ordered association lists (JavaScript objects) -/

/-- `o[k]` for a JavaScript object: first binding of the key, if any. -/
def lookupKey {α : Type} : List (String × α) → String → Option α
  | [], _ => Option.none
  | (k2, v) :: rest, k => if k2 = k then some v else lookupKey rest k

/-- `o[k] = v` for a JavaScript object: replace the existing binding in
place, otherwise append a new binding at the end. -/
def setKey {α : Type} : List (String × α) → String → α → List (String × α)
  | [], k, v => [(k, v)]
  | (k2, v2) :: rest, k, v =>
    if k2 = k then (k, v) :: rest else (k2, v2) :: setKey rest k v

/-- `delete o[k]` for a JavaScript object. -/
def delKey {α : Type} : List (String × α) → String → List (String × α)
  | [], _ => []
  | (k2, v) :: rest, k => if k2 = k then delKey rest k else (k2, v) :: delKey rest k

/-- `k in o` for a JavaScript object. -/
def containsKey {α : Type} (l : List (String × α)) (k : String) : Bool :=
  (lookupKey l k).isSome

/-! ## The tokenizer `split` (lines 97-191) -/

/-- The four lexer states of `split`. -/
inductive SplitState where
  | skipping : SplitState
  | reading : SplitState
  | single : SplitState
  | double : SplitState
deriving DecidableEq, Repr

/-- The backslash-escape table of the double-quoted state
(lines 152-180); any other character is passed through literally. -/
def escMap (c : Char) : List Char :=
  if c = 'b' then [Char.ofNat 8]
  else if c = 'f' then [Char.ofNat 12]
  else if c = 'n' then [Char.ofNat 10]
  else if c = 'r' then [Char.ofNat 13]
  else if c = 't' then [Char.ofNat 9]
  else if c = 'v' then [Char.ofNat 11]
  else [c]

/-- `s[i++]` past the end of the string yields `undefined`, and
`current += undefined` appends the text "undefined" (line 151/178 when the
backslash is the last character of the input). -/
def undefinedChars : List Char := "undefined".data

/-- The while-loop of `split` (lines 110-187) followed by the final push
of `current` (line 188).  The input string and the accumulating token are
lists of characters; `all` is the list of pushed tokens. -/
def splitCore : SplitState → List Char → List Char → List (List Char) → List (List Char)
  | _, [], current, all => all ++ [current]
  | .skipping, c :: rest, current, all =>
    if c = spaceChar ∨ c = tabChar then splitCore .skipping rest current all
    else if c = squoteChar then splitCore .single rest [] (all ++ [current])
    else if c = dquoteChar then splitCore .double rest [] (all ++ [current])
    else splitCore .reading rest [c] (all ++ [current])
  | .reading, c :: rest, current, all =>
    if c = spaceChar ∨ c = tabChar then splitCore .skipping rest current all
    else splitCore .reading rest (current ++ [c]) all
  | .single, c :: rest, current, all =>
    if c = squoteChar then splitCore .skipping rest current all
    else splitCore .single rest (current ++ [c]) all
  | .double, c :: rest, current, all =>
    if c = dquoteChar then splitCore .skipping rest current all
    else if c = bslashChar then
      match rest with
      | [] => splitCore .double [] (current ++ undefinedChars) all
      | cc :: rest2 => splitCore .double rest2 (current ++ escMap cc) all
    else splitCore .double rest (current ++ [c]) all
termination_by structural _st l _cur _all => l

/-- The tokenizer (function `split`, lines 97-191): run the state machine
from the `Skipping` state and drop every empty token (line 190). -/
def split (s : String) : List String :=
  ((splitCore SplitState.skipping s.data [] []).filter
    (fun t => t.length > 0)).map (fun t => String.mk t)

/-! ## The schema (types `Param`, `Params`) -/

/-- A parameter's coercion: `"bool"`, a user-supplied `Parser` function
(modelled as returning either a value or a `ParseError`, matching the
catch at lines 215-223), or absent (identity). -/
inductive PType where
  | bool : PType
  | custom : (Value → Except ParseError Value) → PType
  | none : PType

/-- A parameter descriptor (type `Param`, lines 5-12).  `long` is
`string | string[] | undefined`; the other optional fields are `Option`s
and `optional` defaults to `false` (JavaScript `undefined` is falsy). -/
structure Param where
  long : Option (Sum String (List String)) := Option.none
  short : Option String := Option.none
  type : PType := PType.none
  optional : Bool := false
  default : Option String := Option.none

/-- A schema: the parameter descriptors keyed by name, in declaration
order (JavaScript `for (const key in params)` enumerates string keys in
insertion order). -/
abbrev Params := List (String × Param)

/-- `param.type === "bool"` (lines 68, 212, 254, 273). -/
def isBoolType (p : Param) : Bool :=
  match p.type with
  | PType.bool => true
  | _ => false

/-- Truthiness of `param.short` (lines 71, 92, 235, 263): a defined,
non-empty string. -/
def shortTruthy (p : Param) : Bool :=
  match p.short with
  | some s => if s = "" then false else true
  | Option.none => false

/-- Truthiness of `param.long` (lines 75, 78, 92, 246, 263): a defined
non-empty string, or any array (even the empty array is truthy). -/
def longTruthy (p : Param) : Bool :=
  match p.long with
  | some (Sum.inl s) => if s = "" then false else true
  | some (Sum.inr _) => true
  | Option.none => false

/-- The list of long aliases actually iterated by
`if (param.long) for (const p of param.long)` (lines 78-83 and 246-260):
nothing when `long` is falsy, the array's elements otherwise.  (Inside
`parse` a truthy string `long` has already been replaced by a singleton
array at line 76.) -/
def longAliases (p : Param) : List String :=
  match p.long with
  | some (Sum.inl s) => if s = "" then [] else [s]
  | some (Sum.inr l) => l
  | Option.none => []

/-- Lines 75-77: `if (param.long && typeof param.long === "string")
param.long = [param.long];` — the in-place normalization of a truthy
string `long` into a singleton array.  This mutates the caller's schema. -/
def normalizeLong (p : Param) : Param :=
  match p.long with
  | some (Sum.inl s) => if s = "" then p else { p with long := some (Sum.inr [s]) }
  | _ => p

/-- The normalization applied to one schema entry. -/
def normalizePair (kp : String × Param) : String × Param :=
  (kp.1, normalizeLong kp.2)

/-! ## The preparation pass (lines 60-95) -/

/-- `help.join(" ")`: JavaScript `Array.prototype.join` with a one-space
separator. -/
def joinSep (sep : String) : List String → String
  | [] => ""
  | [x] => x
  | x :: y :: rest => x ++ sep ++ joinSep sep (y :: rest)

/-- The state accumulated by the first `for (const key in params)` loop
(lines 60-93): the `options` and `flags` name lists handed to the raw
splitter, the two help lists, and the schema as left behind by the
in-place `long` normalization. -/
structure Prep where
  options : List String
  flags : List String
  helpParams : List String
  helpOptions : List String
  params : Params

/-- The singleton list of the truthy short alias, if any (line 71:
`if (param.short) type.push(param.short)`). -/
def shortAliasesOf (p : Param) : List String :=
  match p.short with
  | some s => if s = "" then [] else [s]
  | Option.none => []

/-- The help entry of one parameter (lines 69-91): `-x` for the short
alias, `--p` for each long alias, then (for non-boolean parameters) the
`<name>` / `<name=default>` placeholder, joined with spaces.  `p` is the
descriptor as passed in, `p1` its `long`-normalized form (the source
pushes the short alias before normalizing `long`). -/
def helpEntryOf (key : String) (p : Param) (p1 : Param) : String :=
  let help := (shortAliasesOf p).map (fun s => "-" ++ s) ++
    (longAliases p1).map (fun q => "--" ++ q)
  let help :=
    if isBoolType p1 then help
    else
      match p1.default with
      | some d =>
        if d = "" then help ++ ["<" ++ key ++ ">"]
        else help ++ ["<" ++ key ++ "=" ++ d ++ ">"]
      | Option.none => help ++ ["<" ++ key ++ ">"]
  joinSep " " help

/-- One iteration of the first loop (lines 66-93): push the short alias,
normalize `long` in place, push the long aliases, assemble the help entry
and file it under `options` or `params` according to the truthiness of
the aliases. -/
def prepOne (acc : Prep) (kp : String × Param) : Prep :=
  let key := kp.1
  let p1 := normalizeLong kp.2
  let aliasNames := shortAliasesOf kp.2 ++ longAliases p1
  let options := if isBoolType p1 then acc.options else acc.options ++ aliasNames
  let flags := if isBoolType p1 then acc.flags ++ aliasNames else acc.flags
  let helpStr := helpEntryOf key kp.2 p1
  if shortTruthy p1 ∨ longTruthy p1 then
    { options := options, flags := flags, helpParams := acc.helpParams,
      helpOptions := acc.helpOptions ++ [helpStr], params := acc.params ++ [(key, p1)] }
  else
    { options := options, flags := flags, helpParams := acc.helpParams ++ [helpStr],
      helpOptions := acc.helpOptions, params := acc.params ++ [(key, p1)] }

/-- The whole first loop, starting from empty accumulators. -/
def prepAll (params : Params) : Prep :=
  params.foldl prepOne
    { options := [], flags := [], helpParams := [], helpOptions := [], params := [] }

/-- The schema object as observable after a `parse` call: `parse` mutates
each descriptor's `long` field in place (line 76) and changes nothing
else. -/
def parseSchemaAfter (params : Params) : Params :=
  (prepAll params).params

/-! ## The coercion layer (lines 211-224) -/

/-- The per-parameter `parser` closure (lines 211-224): boolean
parameters coerce by truthiness (`!!arg`), a user coercion either returns
a value or a caught `ParseError`, and an absent `type` is the identity. -/
def paramParser (p : Param) : Value → Except ParseError Value :=
  match p.type with
  | PType.bool => fun v => Except.ok (Value.bool v.truthy)
  | PType.custom f => f
  | PType.none => fun v => Except.ok v

/-! ## The raw splitter output -/

/-- The raw splitter's output object: the residual positional list
(`raw._`) and the bound option map (all other keys, in insertion order). -/
structure Raw where
  underscore : List String
  pairs : List (String × Value)
deriving DecidableEq, Repr

/-- Update one bound option of a raw object. -/
def setPair (r : Raw) (k : String) (v : Value) : Raw :=
  { r with pairs := setKey r.pairs k v }

/-! ## The matcher/resolver (lines 201-288) -/

/-- The working state of the resolution loop: the raw object being
consumed, the result record `args`, and the `invalid`/`missing`
accumulators. -/
structure ResolveState where
  raw : Raw
  args : List (String × Value)
  invalid : List (String × ParseError)
  missing : List String
deriving Repr

/-- Lines 226-233: if `param.default` is truthy, coerce it and either
seed `args[key]` or record the failure under `invalid`. -/
def applyDefault (key : String) (p : Param) (st : ResolveState) : ResolveState :=
  match p.default with
  | some d =>
    if d = "" then st
    else
      match paramParser p (Value.str d) with
      | Except.error e => { st with invalid := setKey st.invalid key e }
      | Except.ok v => { st with args := setKey st.args key v }
  | Option.none => st

/-- Lines 235-244: if `param.short` is truthy and bound in the raw map,
coerce the bound value, delete the alias from the raw map, and either
overwrite `args[key]` or record the failure under `invalid`. -/
def applyShort (key : String) (p : Param) (st : ResolveState) : ResolveState :=
  match p.short with
  | some s =>
    if s = "" then st
    else
      match lookupKey st.raw.pairs s with
      | some rv =>
        let st2 := { st with raw := { st.raw with pairs := delKey st.raw.pairs s } }
        match paramParser p rv with
        | Except.error e => { st2 with invalid := setKey st2.invalid key e }
        | Except.ok v => { st2 with args := setKey st2.args key v }
      | Option.none => st
  | Option.none => st

/-- `args[key] ||= val` (line 255): assign only when the current value
is absent or falsy. -/
def orSetArgs (args : List (String × Value)) (k : String) (v : Value) : List (String × Value) :=
  match lookupKey args k with
  | some cur => if cur.truthy then args else setKey args k v
  | Option.none => setKey args k v

/-- Lines 248-259: one long alias.  If bound, coerce the bound value and
delete the alias; a failure goes under `invalid`, a success is OR-ed into
`args[key]` for boolean parameters (`args[key] ||= val`) and overwrites it
for every other kind. -/
def applyLongOne (key : String) (p : Param) (st : ResolveState) (alias2 : String) : ResolveState :=
  match lookupKey st.raw.pairs alias2 with
  | some rv =>
    let st2 := { st with raw := { st.raw with pairs := delKey st.raw.pairs alias2 } }
    match paramParser p rv with
    | Except.error e => { st2 with invalid := setKey st2.invalid key e }
    | Except.ok v =>
      if isBoolType p then { st2 with args := orSetArgs st2.args key v }
      else { st2 with args := setKey st2.args key v }
  | Option.none => st

/-- Lines 246-261: iterate the long aliases in declaration order. -/
def applyLong (key : String) (p : Param) (st : ResolveState) : ResolveState :=
  (longAliases p).foldl (fun st2 alias2 => applyLongOne key p st2 alias2) st

/-- Lines 263-270: a parameter with neither a truthy `short` nor a truthy
`long` dequeues the next positional token (`raw._.shift()`) when one
remains, and coerces it. -/
def applyPositional (key : String) (p : Param) (st : ResolveState) : ResolveState :=
  if shortTruthy p ∨ longTruthy p then st
  else
    match st.raw.underscore with
    | [] => st
    | a :: rest =>
      let st2 := { st with raw := { st.raw with underscore := rest } }
      match paramParser p (Value.str a) with
      | Except.error e => { st2 with invalid := setKey st2.invalid key e }
      | Except.ok v => { st2 with args := setKey st2.args key v }

/-- Lines 272-278: an unresolved field (`args[key] === undefined`)
defaults to `false` for boolean parameters; otherwise a non-optional
parameter is recorded under `missing`. -/
def applyUnresolved (key : String) (p : Param) (st : ResolveState) : ResolveState :=
  match lookupKey st.args key with
  | some v =>
    if v = Value.undef then
      if isBoolType p then { st with args := setKey st.args key (Value.bool false) }
      else if p.optional then st
      else { st with missing := st.missing ++ [key] }
    else st
  | Option.none =>
    if isBoolType p then { st with args := setKey st.args key (Value.bool false) }
    else if p.optional then st
    else { st with missing := st.missing ++ [key] }

/-- The whole body of the second `for (const key in params)` loop
(lines 208-279) for one parameter: default, then short alias, then long
aliases, then positional consumption, then the unresolved check. -/
def resolveParam (key : String) (p : Param) (st : ResolveState) : ResolveState :=
  applyUnresolved key p (applyPositional key p (applyLong key p (applyShort key p (applyDefault key p st))))

/-- The second loop over the (already normalized) schema, starting from
the raw splitter output and empty accumulators (lines 201-206). -/
def resolveAll (params : Params) (raw : Raw) : ResolveState :=
  params.foldl (fun st kp => resolveParam kp.1 kp.2 st) { raw := raw, args := [], invalid := [], missing := [] }

/-- The resolution state reached by `parse` on a given schema and raw
splitter output: the schema is first normalized by the preparation pass. -/
def resolveState (params : Params) (raw : Raw) : ResolveState :=
  resolveAll (prepAll params).params raw

/-! ## The error report and the outcome (lines 281-298) -/

/-- The error report (type `ArgErrors`): per-parameter coercion failures,
the ordered missing list, and the ordered unexpected list. -/
structure ArgErrors where
  invalid : List (String × ParseError)
  missing : List String
  unexpected : List String
deriving DecidableEq, Repr

/-- Lines 281-288: after resolution, every remaining positional token
other than the empty string (`if (arg === "") continue`) and every
remaining bound key (other than `_` itself, which the model keeps apart)
is recorded under `unexpected`, in encounter order. -/
def finishErrors (st : ResolveState) : ArgErrors :=
  { invalid := st.invalid
    missing := st.missing
    unexpected := st.raw.underscore.filter (fun a => ¬ a = "") ++ st.raw.pairs.map Prod.fst }

/-- The help descriptor (type `ParamsHelp`). -/
structure ParamsHelp where
  params : List String
  options : List String
deriving DecidableEq, Repr

/-- The help descriptor assembled by the preparation pass (line 95). -/
def helpOf (params : Params) : ParamsHelp :=
  { params := (prepAll params).helpParams, options := (prepAll params).helpOptions }

/-- The value of a `parse` call (type `ParseReturn`): either a result
record with a null error report, or a null result with the error report;
the help descriptor is always present. -/
structure ParseReturn where
  args : Option (List (String × Value))
  errors : Option ArgErrors
  help : ParamsHelp
deriving DecidableEq, Repr

/-- Lines 201-298 applied to a raw splitter output: resolve every
parameter, collect the leftovers, and return the error report exactly
when one of the three collections is non-empty (lines 290-298). -/
def parseCore (params : Params) (raw : Raw) : ParseReturn :=
  let st := resolveState params raw
  let e := finishErrors st
  if e.invalid.length > 0 ∨ e.missing.length > 0 ∨ e.unexpected.length > 0 then
    { args := Option.none, errors := some e, help := helpOf params }
  else
    { args := some st.args, errors := Option.none, help := helpOf params }

/-! ## The raw splitter (external collaborator) -/

/-- Split a long option body at its first `=`, if any. -/
def splitEq : List Char → Option (List Char × List Char)
  | [] => Option.none
  | c :: rest =>
    if c = eqChar then some ([], rest)
    else
      match splitEq rest with
      | some pr => some (c :: pr.1, pr.2)
      | Option.none => Option.none

/-- Modelled from the spec: the value bound to an option name that
appears without a usable value token — declared string options bind the
empty string, everything else binds boolean `true` (spec section 6,
raw splitter collaborator contract). -/
def noValBind (strings : List String) (name : String) : Value :=
  if strings.contains name then Value.str "" else Value.bool true

/-- Modelled from the spec: whether a token starts with `-` (so the
following token is not consumed as this option's value). -/
def dashStart (t : String) : Bool :=
  match t.data with
  | c :: _ => c = dashChar
  | [] => false

/-- Modelled from the spec: whether a token starts with `--`. -/
def dashDashStart (t : String) : Bool :=
  match t.data with
  | c1 :: c2 :: _ => c1 = dashChar ∧ c2 = dashChar
  | _ => false

/-- Modelled from the spec: the token loop of the external raw splitter
(the `minimist` dependency, which is not part of this repository).  Per
the collaborator contract it separates `--name value`, `--name=value`,
`-x value`, clustered booleans and bare positionals into a map of bound
option values plus a residual ordered positional list; declared boolean
names bind `true` on presence, and a `--` token ends option parsing. -/
def minimistGo (strings flags : List String) : List String → Raw → Raw
  | [], raw => raw
  | t :: rest, raw =>
    if t = "--" then { raw with underscore := raw.underscore ++ rest }
    else if dashDashStart t then
      let body := t.data.drop 2
      match splitEq body with
      | some pr =>
        let name := String.mk pr.1
        let val := String.mk pr.2
        let v := if flags.contains name then Value.bool (val = "true") else Value.str val
        minimistGo strings flags rest (setPair raw name v)
      | Option.none =>
        let name := String.mk body
        if flags.contains name then minimistGo strings flags rest (setPair raw name (Value.bool true))
        else
          match rest with
          | next :: rest2 =>
            if dashStart next then minimistGo strings flags (next :: rest2) (setPair raw name (noValBind strings name))
            else minimistGo strings flags rest2 (setPair raw name (Value.str next))
          | [] => minimistGo strings flags [] (setPair raw name (noValBind strings name))
    else if dashStart t ∧ t.length > 1 then
      let cs := t.data.drop 1
      let raw1 := cs.dropLast.foldl (fun r c => setPair r (String.mk [c]) (Value.bool true)) raw
      let name := String.mk [cs.getLastD spaceChar]
      if flags.contains name then minimistGo strings flags rest (setPair raw1 name (Value.bool true))
      else
        match rest with
        | next :: rest2 =>
          if dashStart next then minimistGo strings flags (next :: rest2) (setPair raw1 name (noValBind strings name))
          else minimistGo strings flags rest2 (setPair raw1 name (Value.str next))
        | [] => minimistGo strings flags [] (setPair raw1 name (noValBind strings name))
    else minimistGo strings flags rest { raw with underscore := raw.underscore ++ [t] }
termination_by structural l _ => l

/-- Modelled from the spec: the whole raw splitter call
`minimist(s, { string: options, boolean: flags })` (lines 196-199).
Declared boolean flags are pre-seeded to `false` in the output map, as
the matcher relies on (a boolean alias is always bound). -/
def minimist (tokens strings flags : List String) : Raw :=
  minimistGo strings flags tokens
    { underscore := [], pairs := flags.foldl (fun ps f => setKey ps f (Value.bool false)) [] }

/-! ## The entry point `parse` (lines 56-299) -/

/-- `parse` on an already-split argument vector: run the preparation
pass, hand the token list and the collected alias names to the raw
splitter, and resolve. -/
def parse (tokens : List String) (params : Params) : ParseReturn :=
  parseCore params (minimist tokens (prepAll params).options (prepAll params).flags)

/-- `parse` on a single command-line string: tokenize first
(lines 193-195). -/
def parseString (s : String) (params : Params) : ParseReturn :=
  parse (split s) params

/-! ## Association-list lemmas -/

theorem lookupKey_setKey_self {α : Type} (l : List (String × α)) (k : String) (v : α) :
    lookupKey (setKey l k v) k = some v := by
  induction l with
  | nil => simp [setKey, lookupKey]
  | cons p rest ih =>
    obtain ⟨k2, v2⟩ := p
    by_cases h : k2 = k
    · simp [setKey, lookupKey, h]
    · simp [setKey, lookupKey, h, ih]

theorem lookupKey_setKey_ne {α : Type} (l : List (String × α)) (k2 k : String) (v : α)
    (h : ¬ k2 = k) : lookupKey (setKey l k2 v) k = lookupKey l k := by
  induction l with
  | nil => simp [setKey, lookupKey, h]
  | cons p rest ih =>
    obtain ⟨k3, v3⟩ := p
    by_cases h3 : k3 = k2
    · subst h3
      simp [setKey, lookupKey, h]
    · simp only [setKey, if_neg h3]
      by_cases h4 : k3 = k
      · simp [lookupKey, h4]
      · simp [lookupKey, h4, ih]

theorem lookupKey_delKey_ne {α : Type} (l : List (String × α)) (k2 k : String)
    (h : ¬ k2 = k) : lookupKey (delKey l k2) k = lookupKey l k := by
  induction l with
  | nil => simp [delKey, lookupKey]
  | cons p rest ih =>
    obtain ⟨k3, v3⟩ := p
    by_cases h3 : k3 = k2
    · subst h3
      simpa [delKey, lookupKey, h] using ih
    · by_cases h4 : k3 = k
      · subst h4
        simp [delKey, lookupKey, h3]
      · simp [delKey, lookupKey, h3, h4, ih]

theorem containsKey_setKey_mono {α : Type} (l : List (String × α)) (k2 k : String) (v : α)
    (h : containsKey l k = true) : containsKey (setKey l k2 v) k = true := by
  by_cases h2 : k2 = k
  · subst h2
    simp [containsKey, lookupKey_setKey_self]
  · simpa [containsKey, lookupKey_setKey_ne l k2 k v h2] using h

/-! ## Tokenizer lemmas -/

theorem splitCore_ws (ws : List Char) (cur : List Char) (all : List (List Char))
    (h : ∀ c ∈ ws, c = spaceChar ∨ c = tabChar) :
    splitCore SplitState.skipping ws cur all = all ++ [cur] := by
  induction ws with
  | nil => simp [splitCore]
  | cons c rest ih =>
    have hc := h c (by simp)
    have hrest : ∀ c2 ∈ rest, c2 = spaceChar ∨ c2 = tabChar := fun c2 hm => h c2 (by simp [hm])
    simp [splitCore, hc, ih hrest]

theorem splitCore_single (u : List Char) (rest : List Char) (cur : List Char)
    (all : List (List Char)) (h : ¬ squoteChar ∈ u) :
    splitCore SplitState.single (u ++ squoteChar :: rest) cur all =
      splitCore SplitState.skipping rest (cur ++ u) all := by
  induction u generalizing cur with
  | nil => simp [splitCore]
  | cons c u2 ih =>
    have hc : ¬ c = squoteChar := fun hq => h (by simp [hq])
    have hu2 : ¬ squoteChar ∈ u2 := fun hm => h (by simp [hm])
    rw [List.cons_append]
    conv_lhs => rw [splitCore.eq_def]
    simp only [if_neg hc]
    rw [ih (cur ++ [c]) hu2]
    simp

theorem splitCore_double (v : List Char) (rest : List Char) (cur : List Char)
    (all : List (List Char)) (h1 : ¬ dquoteChar ∈ v) (h2 : ¬ bslashChar ∈ v) :
    splitCore SplitState.double (v ++ dquoteChar :: rest) cur all =
      splitCore SplitState.skipping rest (cur ++ v) all := by
  induction v generalizing cur with
  | nil =>
    rw [List.nil_append]
    conv_lhs => rw [splitCore.eq_def]
    simp
  | cons c v2 ih =>
    have hc1 : ¬ c = dquoteChar := fun hq => h1 (by simp [hq])
    have hc2 : ¬ c = bslashChar := fun hq => h2 (by simp [hq])
    have hv1 : ¬ dquoteChar ∈ v2 := fun hm => h1 (by simp [hm])
    have hv2 : ¬ bslashChar ∈ v2 := fun hm => h2 (by simp [hm])
    rw [List.cons_append]
    conv_lhs => rw [splitCore.eq_def]
    simp only [if_neg hc1, if_neg hc2]
    rw [ih (cur ++ [c]) hv1 hv2]
    simp

/-! ## Claim C1: strict either/or outcome -/

/-- Claim C1: for every schema and raw splitter output, `parse` returns
either a non-null result with a null error report, or a null result with
a non-null error report in which at least one of `invalid`, `missing`,
`unexpected` is non-empty; a report with all three empty is never
returned. -/
theorem parse_outcome_dichotomy (params : Params) (raw : Raw) :
    ((parseCore params raw).args.isSome = true ∧ (parseCore params raw).errors = Option.none) ∨
    (∃ e, (parseCore params raw).args = Option.none ∧ (parseCore params raw).errors = some e ∧
      (¬ e.invalid = [] ∨ ¬ e.missing = [] ∨ ¬ e.unexpected = [])) := by
  by_cases h : (finishErrors (resolveState params raw)).invalid.length > 0 ∨
      (finishErrors (resolveState params raw)).missing.length > 0 ∨
      (finishErrors (resolveState params raw)).unexpected.length > 0
  · right
    refine ⟨finishErrors (resolveState params raw), ?_, ?_, ?_⟩
    · simp [parseCore, h]
    · simp [parseCore, h]
    · rcases h with h | h | h
      · exact Or.inl (List.length_pos.mp h)
      · exact Or.inr (Or.inl (List.length_pos.mp h))
      · exact Or.inr (Or.inr (List.length_pos.mp h))
  · left
    constructor
    · simp [parseCore, h]
    · simp [parseCore, h]

/-! ## Claim C2: adjacent quoted segments -/

/-- The input `'a'"b"` of the spec's adjacency example. -/
def adjacentQuotedInput : String := "\x27a\x27\"b\""

/-- Claim C2 counterexample: tokenizing `'a'"b"` yields the two tokens
`a` and `b`, not the single token `ab` the claim asserts — a quote
encountered in the Skipping state always pushes the accumulated token
and starts a fresh one (lines 116-123), so adjacent quoted segments do
not concatenate. -/
theorem split_adjacent_quoted_cex :
    split adjacentQuotedInput = ["a", "b"] ∧ ¬ split adjacentQuotedInput = ["ab"] := by
  decide

/-- Claim C2 (amended): adjacent quoted segments not separated by
whitespace do not concatenate: a single-quoted segment `u` immediately
followed by a double-quoted segment `v` tokenizes to the two separate
tokens `u` and `v` (each dropped if empty), never to the single token
`uv`. -/
theorem split_adjacent_quoted_separate (u v : List Char)
    (hu : ¬ squoteChar ∈ u) (hv1 : ¬ dquoteChar ∈ v) (hv2 : ¬ bslashChar ∈ v) :
    split (String.mk (squoteChar :: u ++ squoteChar :: dquoteChar :: v ++ [dquoteChar])) =
      ([u, v].filter (fun t => t.length > 0)).map (fun t => String.mk t) := by
  have hq1 : ¬ (squoteChar = spaceChar ∨ squoteChar = tabChar) := by decide
  have hq2 : ¬ (dquoteChar = spaceChar ∨ dquoteChar = tabChar) := by decide
  have hq3 : ¬ dquoteChar = squoteChar := by decide
  have step1 : splitCore SplitState.skipping
      (squoteChar :: (u ++ squoteChar :: dquoteChar :: v ++ [dquoteChar])) [] [] =
      splitCore SplitState.single (u ++ squoteChar :: (dquoteChar :: v ++ [dquoteChar])) [] [[]] := by
    conv_lhs => rw [splitCore.eq_def]
    simp [hq1]
  have step2 : splitCore SplitState.single (u ++ squoteChar :: (dquoteChar :: v ++ [dquoteChar])) [] [[]] =
      splitCore SplitState.skipping (dquoteChar :: v ++ [dquoteChar]) u [[]] := by
    rw [splitCore_single u (dquoteChar :: v ++ [dquoteChar]) [] [[]] hu]
    simp
  have step3 : splitCore SplitState.skipping (dquoteChar :: v ++ [dquoteChar]) u [[]] =
      splitCore SplitState.double (v ++ [dquoteChar]) [] [[], u] := by
    conv_lhs => rw [splitCore.eq_def]
    simp [hq2, hq3]
  have step4 : splitCore SplitState.double (v ++ [dquoteChar]) [] [[], u] = [[], u, v] := by
    have : v ++ [dquoteChar] = v ++ dquoteChar :: ([] : List Char) := by simp
    rw [this, splitCore_double v [] [] [[], u] hv1 hv2]
    conv_lhs => rw [splitCore.eq_def]
    simp
  unfold split
  have hdata : (String.mk (squoteChar :: u ++ squoteChar :: dquoteChar :: v ++ [dquoteChar])).data =
      squoteChar :: (u ++ squoteChar :: dquoteChar :: v ++ [dquoteChar]) := rfl
  rw [hdata, step1, step2, step3, step4]
  simp [List.filter]

/-- Witness for the amended claim C2 at the spec's own example: `'a'"b"`
(as an explicit character list) tokenizes to the two tokens `a`, `b`. -/
theorem split_adjacent_quoted_separate_witness :
    split (String.mk (squoteChar :: ['a'] ++ squoteChar :: dquoteChar :: ['b'] ++ [dquoteChar])) =
      ["a", "b"] :=
  (split_adjacent_quoted_separate ['a'] ['b'] (by decide) (by decide) (by decide)).trans (by decide)

/-! ## Claim C7: no empty tokens -/

/-- Claim C7: the tokenizer never emits an empty-string token (empty
tokens are filtered at line 190), and a whitespace-only input yields the
empty token sequence. -/
theorem split_no_empty_tokens (s : String) :
    ¬ "" ∈ split s ∧ ((∀ c ∈ s.data, c = spaceChar ∨ c = tabChar) → split s = []) := by
  constructor
  · intro hmem
    obtain ⟨t, ht, hmk⟩ := List.mem_map.mp hmem
    have ht2 := (List.mem_filter.mp ht).2
    have hlen : t.length > 0 := by simpa using ht2
    have hnil : t = [] := by
      have := congrArg String.data hmk
      simpa using this
    simp [hnil] at hlen
  · intro hws
    unfold split
    rw [splitCore_ws s.data [] [] hws]
    simp [List.filter]

/-- Witness for claim C7: no empty token in `split "a b"`, and the
whitespace-only input `"  \t "` yields the empty sequence. -/
theorem split_no_empty_tokens_witness :
    ¬ "" ∈ split "a b" ∧ split "  \t " = [] :=
  ⟨(split_no_empty_tokens "a b").1, (split_no_empty_tokens "  \t ").2 (by decide)⟩

/-! ## Normalization lemmas for the preparation pass -/

theorem normalizeLong_short (p : Param) : (normalizeLong p).short = p.short := by
  unfold normalizeLong
  cases h : p.long with
  | none => rfl
  | some s =>
    cases s with
    | inl s => by_cases hs : s = "" <;> simp [hs]
    | inr l => rfl

theorem normalizeLong_type (p : Param) : (normalizeLong p).type = p.type := by
  unfold normalizeLong
  cases h : p.long with
  | none => rfl
  | some s =>
    cases s with
    | inl s => by_cases hs : s = "" <;> simp [hs]
    | inr l => rfl

theorem normalizeLong_optional (p : Param) : (normalizeLong p).optional = p.optional := by
  unfold normalizeLong
  cases h : p.long with
  | none => rfl
  | some s =>
    cases s with
    | inl s => by_cases hs : s = "" <;> simp [hs]
    | inr l => rfl

theorem normalizeLong_default (p : Param) : (normalizeLong p).default = p.default := by
  unfold normalizeLong
  cases h : p.long with
  | none => rfl
  | some s =>
    cases s with
    | inl s => by_cases hs : s = "" <;> simp [hs]
    | inr l => rfl

theorem longAliases_normalizeLong (p : Param) : longAliases (normalizeLong p) = longAliases p := by
  unfold normalizeLong longAliases
  cases h : p.long with
  | none => simp [h]
  | some s =>
    cases s with
    | inl s => by_cases hs : s = "" <;> simp [hs, h]
    | inr l => simp [h]

theorem longTruthy_normalizeLong (p : Param) : longTruthy (normalizeLong p) = longTruthy p := by
  unfold normalizeLong longTruthy
  cases h : p.long with
  | none => simp [h]
  | some s =>
    cases s with
    | inl s => by_cases hs : s = "" <;> simp [hs, h]
    | inr l => simp [h]

theorem shortTruthy_normalizeLong (p : Param) : shortTruthy (normalizeLong p) = shortTruthy p := by
  unfold shortTruthy
  rw [normalizeLong_short]

theorem isBoolType_normalizeLong (p : Param) : isBoolType (normalizeLong p) = isBoolType p := by
  unfold isBoolType
  rw [normalizeLong_type]

theorem normalizeLong_idem (p : Param) : normalizeLong (normalizeLong p) = normalizeLong p := by
  unfold normalizeLong
  cases h : p.long with
  | none => simp [h]
  | some s =>
    cases s with
    | inl s => by_cases hs : s = "" <;> simp [hs, h]
    | inr l => simp [h]

theorem prepOne_params (acc : Prep) (kp : String × Param) :
    (prepOne acc kp).params = acc.params ++ [normalizePair kp] := by
  simp only [prepOne, normalizePair]
  split <;> rfl

theorem prepAll_params (P : Params) :
    ∀ acc : Prep, (P.foldl prepOne acc).params = acc.params ++ P.map normalizePair := by
  induction P with
  | nil => intro acc; simp
  | cons kp P ih =>
    intro acc
    rw [List.foldl_cons, ih, List.map_cons, prepOne_params]
    simp

theorem shortAliasesOf_normalizeLong (p : Param) :
    shortAliasesOf (normalizeLong p) = shortAliasesOf p := by
  unfold shortAliasesOf
  rw [normalizeLong_short]

theorem helpEntryOf_normalizeLong (key : String) (p p1 : Param) :
    helpEntryOf key (normalizeLong p) p1 = helpEntryOf key p p1 := by
  unfold helpEntryOf
  rw [shortAliasesOf_normalizeLong]

theorem prepOne_normalizePair (acc : Prep) (kp : String × Param) :
    prepOne acc (normalizePair kp) = prepOne acc kp := by
  simp only [prepOne, normalizePair, normalizeLong_idem, shortAliasesOf_normalizeLong,
    helpEntryOf_normalizeLong]

theorem prepAll_map_normalize (P : Params) : prepAll (P.map normalizePair) = prepAll P := by
  unfold prepAll
  rw [List.foldl_map]
  exact List.foldl_ext _ _ _ (fun acc kp _ => prepOne_normalizePair acc kp)

theorem parseSchemaAfter_eq_map (P : Params) : parseSchemaAfter P = P.map normalizePair := by
  unfold parseSchemaAfter prepAll
  simpa using prepAll_params P _

theorem prepAll_after (P : Params) : prepAll (parseSchemaAfter P) = prepAll P := by
  rw [parseSchemaAfter_eq_map]
  exact prepAll_map_normalize P

/-! ## Claim C5: schema (non-)mutation -/

/-- The schema `{fruit: {long: "fruit"}}` whose `long` field is a string. -/
def stringLongSchema : Params := [("fruit", { long := some (Sum.inl "fruit") })]

/-- Claim C5 counterexample: `parse` does modify a parameter descriptor
field — line 76 (`param.long = [param.long]`) replaces the string-valued
`long` of `{fruit: {long: "fruit"}}` with the array `["fruit"]` in place,
so the schema observable after the call differs from the one passed in. -/
theorem parse_mutates_schema_cex :
    ¬ (parseSchemaAfter stringLongSchema).map (fun kp => kp.2.long) =
      stringLongSchema.map (fun kp => kp.2.long) := by
  decide

/-- Claim C5 (amended): a `parse` call leaves the schema unchanged
except for the in-place normalization of line 76: each descriptor whose
`long` is a truthy string gets that `long` replaced by the singleton
array of itself.  The keys and their order, every other descriptor field,
and the denoted alias list and truthiness of `long` are all unchanged. -/
theorem parse_schema_mutation_only_normalizes (params : Params) :
    parseSchemaAfter params = params.map normalizePair ∧
    (∀ p : Param, (normalizeLong p).short = p.short ∧ (normalizeLong p).type = p.type ∧
      (normalizeLong p).optional = p.optional ∧ (normalizeLong p).default = p.default ∧
      longAliases (normalizeLong p) = longAliases p ∧ longTruthy (normalizeLong p) = longTruthy p) :=
  ⟨parseSchemaAfter_eq_map params,
   fun p => ⟨normalizeLong_short p, normalizeLong_type p, normalizeLong_optional p,
     normalizeLong_default p, longAliases_normalizeLong p, longTruthy_normalizeLong p⟩⟩

/-! ## Claim C8: idempotence, no hidden state -/

/-- Claim C8: re-running `parse` with the same input and the same schema
object yields an outcome equal by value to the first run.  The embedding
of `parse` is a pure function of its arguments (no state survives a
call), and the one in-place schema mutation (line 76) is idempotent and
observationally inert: the second call, which sees the mutated schema,
returns exactly the first call's result, and the schema is not mutated
further. -/
theorem parse_idempotent (tokens : List String) (params : Params) :
    parse tokens (parseSchemaAfter params) = parse tokens params ∧
    parseSchemaAfter (parseSchemaAfter params) = parseSchemaAfter params := by
  have h := prepAll_after params
  constructor
  · unfold parse parseCore resolveState helpOf
    rw [h]
  · show (prepAll (parseSchemaAfter params)).params = parseSchemaAfter params
    rw [h]
    rfl

/-! ## Claim C9: the empty-string default -/

/-- Replace a declared-but-falsy default (`default: ""`) by no default at
all.  Claim C9 asserts `parse` cannot tell the difference. -/
def eraseEmptyDefault (p : Param) : Param :=
  match p.default with
  | some d => if d = "" then { p with default := Option.none } else p
  | Option.none => p

/-- `eraseEmptyDefault` on a schema entry. -/
def erasePair (kp : String × Param) : String × Param :=
  (kp.1, eraseEmptyDefault kp.2)

theorem eraseEmptyDefault_short (p : Param) : (eraseEmptyDefault p).short = p.short := by
  unfold eraseEmptyDefault
  cases h : p.default with
  | none => rfl
  | some d => by_cases hd : d = "" <;> simp [hd]

theorem eraseEmptyDefault_long (p : Param) : (eraseEmptyDefault p).long = p.long := by
  unfold eraseEmptyDefault
  cases h : p.default with
  | none => rfl
  | some d => by_cases hd : d = "" <;> simp [hd]

theorem eraseEmptyDefault_type (p : Param) : (eraseEmptyDefault p).type = p.type := by
  unfold eraseEmptyDefault
  cases h : p.default with
  | none => rfl
  | some d => by_cases hd : d = "" <;> simp [hd]

theorem eraseEmptyDefault_optional (p : Param) : (eraseEmptyDefault p).optional = p.optional := by
  unfold eraseEmptyDefault
  cases h : p.default with
  | none => rfl
  | some d => by_cases hd : d = "" <;> simp [hd]

theorem normalizeLong_erase_comm (p : Param) :
    normalizeLong (eraseEmptyDefault p) = eraseEmptyDefault (normalizeLong p) := by
  obtain ⟨lo, sh, ty, op, df⟩ := p
  unfold eraseEmptyDefault normalizeLong
  cases df with
  | none =>
    cases lo with
    | none => simp
    | some s =>
      cases s with
      | inl s => by_cases hs : s = "" <;> simp [hs]
      | inr l => simp
  | some d =>
    by_cases hd : d = ""
    · subst hd
      cases lo with
      | none => simp
      | some s =>
        cases s with
        | inl s => by_cases hs : s = "" <;> simp [hs]
        | inr l => simp
    · cases lo with
      | none => simp [hd]
      | some s =>
        cases s with
        | inl s => by_cases hs : s = "" <;> simp [hs, hd]
        | inr l => simp [hd]

theorem applyDefault_erase (k : String) (p : Param) (st : ResolveState) :
    applyDefault k (eraseEmptyDefault p) st = applyDefault k p st := by
  obtain ⟨lo, sh, ty, op, df⟩ := p
  unfold eraseEmptyDefault applyDefault
  cases df with
  | none => rfl
  | some d =>
    by_cases hd : d = ""
    · subst hd
      simp
    · simp [hd]

/-- Everything after the default step reads only the `long`, `short`,
`type` and `optional` fields of the descriptor, never `default`. -/
theorem postDefault_congr (k : String) (p q : Param) (st : ResolveState)
    (hlo : p.long = q.long) (hsh : p.short = q.short) (hty : p.type = q.type)
    (hop : p.optional = q.optional) :
    applyUnresolved k p (applyPositional k p (applyLong k p (applyShort k p st))) =
      applyUnresolved k q (applyPositional k q (applyLong k q (applyShort k q st))) := by
  obtain ⟨lo1, sh1, ty1, op1, df1⟩ := p
  obtain ⟨lo2, sh2, ty2, op2, df2⟩ := q
  simp only at hlo hsh hty hop
  subst hlo hsh hty hop
  rfl

theorem resolveParam_erase (k : String) (p : Param) (st : ResolveState) :
    resolveParam k (eraseEmptyDefault p) st = resolveParam k p st := by
  unfold resolveParam
  rw [applyDefault_erase]
  exact postDefault_congr k (eraseEmptyDefault p) p (applyDefault k p st)
    (eraseEmptyDefault_long p) (eraseEmptyDefault_short p)
    (eraseEmptyDefault_type p) (eraseEmptyDefault_optional p)

theorem resolveAll_erase (Q : Params) (raw : Raw) :
    resolveAll (Q.map erasePair) raw = resolveAll Q raw := by
  unfold resolveAll
  rw [List.foldl_map]
  exact List.foldl_ext _ _ _ (fun st kp _ => resolveParam_erase kp.1 kp.2 st)

/-- The effect of erasing empty defaults on the preparation pass: only
the stored (normalized) schema changes, and it changes pointwise. -/
def erasePrep (pr : Prep) : Prep :=
  { pr with params := pr.params.map erasePair }

theorem shortTruthy_erase (p : Param) : shortTruthy (eraseEmptyDefault p) = shortTruthy p := by
  unfold shortTruthy
  rw [eraseEmptyDefault_short]

theorem longTruthy_erase (p : Param) : longTruthy (eraseEmptyDefault p) = longTruthy p := by
  unfold longTruthy
  rw [eraseEmptyDefault_long]

theorem isBoolType_erase (p : Param) : isBoolType (eraseEmptyDefault p) = isBoolType p := by
  unfold isBoolType
  rw [eraseEmptyDefault_type]

theorem longAliases_erase (p : Param) : longAliases (eraseEmptyDefault p) = longAliases p := by
  unfold longAliases
  rw [eraseEmptyDefault_long]

theorem shortAliasesOf_erase (p : Param) :
    shortAliasesOf (eraseEmptyDefault p) = shortAliasesOf p := by
  unfold shortAliasesOf
  rw [eraseEmptyDefault_short]

theorem helpEntryOf_erase (key : String) (p p1 : Param) :
    helpEntryOf key (eraseEmptyDefault p) (eraseEmptyDefault p1) = helpEntryOf key p p1 := by
  unfold helpEntryOf
  rw [shortAliasesOf_erase, longAliases_erase, isBoolType_erase]
  obtain ⟨lo, sh, ty, op, df⟩ := p1
  cases df with
  | none => rfl
  | some d =>
    by_cases hd : d = ""
    · subst hd
      simp [eraseEmptyDefault]
    · simp [eraseEmptyDefault, hd]

theorem prepOne_erasePair (acc : Prep) (kp : String × Param) :
    prepOne (erasePrep acc) (erasePair kp) = erasePrep (prepOne acc kp) := by
  obtain ⟨key, p⟩ := kp
  simp only [prepOne, erasePair, erasePrep, normalizeLong_erase_comm, shortAliasesOf_erase,
    longAliases_erase, isBoolType_erase, helpEntryOf_erase, shortTruthy_erase, longTruthy_erase]
  split <;> simp [erasePair]

theorem prepFold_erase (P : Params) :
    ∀ acc : Prep, (P.map erasePair).foldl prepOne (erasePrep acc) = erasePrep (P.foldl prepOne acc) := by
  induction P with
  | nil => intro acc; rfl
  | cons kp P ih =>
    intro acc
    rw [List.map_cons, List.foldl_cons, List.foldl_cons, prepOne_erasePair, ih]

theorem prepAll_erase (P : Params) : prepAll (P.map erasePair) = erasePrep (prepAll P) := by
  unfold prepAll
  have h : ({ options := [], flags := [], helpParams := [], helpOptions := [], params := [] } : Prep) =
      erasePrep { options := [], flags := [], helpParams := [], helpOptions := [], params := [] } := rfl
  rw [h, prepFold_erase, ← h]

theorem parseCore_erase (params : Params) (raw : Raw) :
    parseCore (params.map erasePair) raw = parseCore params raw := by
  unfold parseCore resolveState helpOf
  rw [prepAll_erase]
  simp only [erasePrep]
  rw [resolveAll_erase]

/-- The schema `{fruit: {long: "fruit", default: ""}}` of claim C9. -/
def emptyDefaultSchema : Params :=
  [("fruit", { long := some (Sum.inl "fruit"), default := some "" })]

/-- Claim C9: a parameter declared with the empty string as its default
behaves exactly as if no default were declared — `if (param.default)`
(lines 86 and 226) is false for `""`, so the field is not seeded and the
help placeholder has no `=default` part; erasing every empty-string
default from a schema leaves every `parse` outcome unchanged.  In
particular `parse("", {fruit: {long: "fruit", default: ""}})` reports
`fruit` as missing and renders the help entry `--fruit <fruit>`. -/
theorem parse_empty_default_as_no_default :
    (∀ (tokens : List String) (params : Params),
      parse tokens (params.map erasePair) = parse tokens params) ∧
    parseString "" emptyDefaultSchema =
      { args := Option.none,
        errors := some { invalid := [], missing := ["fruit"], unexpected := [] },
        help := { params := [], options := ["--fruit <fruit>"] } } := by
  constructor
  · intro tokens params
    unfold parse
    rw [prepAll_erase]
    simp only [erasePrep]
    exact parseCore_erase params _
  · decide

/-! ## Claim C6: unexpected leftovers -/

/-- Claim C6 counterexample: an empty-string leftover positional token is
NOT recorded under `unexpected` — line 282 (`if (arg === "") continue`)
skips it.  Parsing the pre-split token list `[""]` against the empty
schema leaves the raw positional `""` unconsumed, yet the call succeeds
with no error report at all. -/
theorem unexpected_skips_empty_positional_cex :
    (parse [""] ([] : Params)).errors = Option.none ∧
    (resolveState ([] : Params) (minimist [""] [] [])).raw.underscore = [""] := by
  decide

/-- Claim C6 (amended): after resolution, every remaining NON-EMPTY raw
positional token and every remaining unconsumed raw-splitter key (other
than the positional-list key) is recorded, in encounter order, under
`unexpected`; leftover empty-string positional tokens are silently
skipped.  When no error report is produced there were no such leftovers
at all. -/
theorem unexpected_records_leftovers (params : Params) (raw : Raw) :
    match (parseCore params raw).errors with
    | some e => e.unexpected =
        (resolveState params raw).raw.underscore.filter (fun a => ¬ a = "") ++
        (resolveState params raw).raw.pairs.map Prod.fst
    | Option.none =>
        (resolveState params raw).raw.underscore.filter (fun a => ¬ a = "") = [] ∧
        (resolveState params raw).raw.pairs = [] := by
  by_cases h : (finishErrors (resolveState params raw)).invalid.length > 0 ∨
      (finishErrors (resolveState params raw)).missing.length > 0 ∨
      (finishErrors (resolveState params raw)).unexpected.length > 0
  · have hred : (parseCore params raw).errors = some (finishErrors (resolveState params raw)) := by
      simp [parseCore, h]
    rw [hred]
    show (finishErrors (resolveState params raw)).unexpected = _
    rfl
  · have hred : (parseCore params raw).errors = Option.none := by
      simp [parseCore, h]
    rw [hred]
    show _ ∧ _
    have hne : ¬ (finishErrors (resolveState params raw)).unexpected.length > 0 :=
      fun hgt => h (Or.inr (Or.inr hgt))
    have hnil : (finishErrors (resolveState params raw)).unexpected = [] := by
      cases hl : (finishErrors (resolveState params raw)).unexpected with
      | nil => rfl
      | cons a l => exact absurd (by rw [hl]; simp) hne
    have hsplit : (∀ a ∈ (resolveState params raw).raw.underscore, a = "") ∧
        (resolveState params raw).raw.pairs = [] := by
      simpa [finishErrors] using hnil
    refine ⟨List.filter_eq_nil_iff.mpr ?_, hsplit.2⟩
    intro a ha
    simp [hsplit.1 a ha]

/-! ## Resolution step lemmas -/

theorem applyDefault_raw (k : String) (p : Param) (st : ResolveState) :
    (applyDefault k p st).raw = st.raw := by
  unfold applyDefault
  cases hd : p.default with
  | none => rfl
  | some d =>
    by_cases hdd : d = ""
    · simp [hdd]
    · simp only [if_neg hdd]
      cases hp : paramParser p (Value.str d) with
      | error e => rfl
      | ok v => rfl

theorem applyShort_bound (k : String) (p : Param) (st : ResolveState) (s : String)
    (rv v : Value) (hs : p.short = some s) (hse : ¬ s = "")
    (hlu : lookupKey st.raw.pairs s = some rv) (hp : paramParser p rv = Except.ok v) :
    applyShort k p st =
      { st with raw := { st.raw with pairs := delKey st.raw.pairs s },
                args := setKey st.args k v } := by
  unfold applyShort
  rw [hs]
  simp only [if_neg hse, hlu, hp]

theorem applyLong_nil (k : String) (p : Param) (st : ResolveState)
    (h : longAliases p = []) : applyLong k p st = st := by
  unfold applyLong
  rw [h]
  rfl

theorem applyLongOne_bound (k : String) (p : Param) (st : ResolveState) (al : String)
    (rv v : Value) (hlu : lookupKey st.raw.pairs al = some rv)
    (hp : paramParser p rv = Except.ok v) (hnb : isBoolType p = false) :
    applyLongOne k p st al =
      { st with raw := { st.raw with pairs := delKey st.raw.pairs al },
                args := setKey st.args k v } := by
  unfold applyLongOne
  simp only [hlu, hp, hnb]
  rfl

theorem applyPositional_skip (k : String) (p : Param) (st : ResolveState)
    (h : shortTruthy p = true ∨ longTruthy p = true) : applyPositional k p st = st := by
  unfold applyPositional
  rw [if_pos h]

theorem applyUnresolved_resolved (k : String) (p : Param) (st : ResolveState) (v : Value)
    (hlu : lookupKey st.args k = some v) (hv : ¬ v = Value.undef) :
    applyUnresolved k p st = st := by
  unfold applyUnresolved
  rw [hlu]
  simp [hv]

theorem shortTruthy_of_some (p : Param) (s : String) (hs : p.short = some s)
    (hse : ¬ s = "") : shortTruthy p = true := by
  unfold shortTruthy
  rw [hs]
  simp [hse]

theorem longAliases_of_inr (p : Param) (l : List String)
    (h : p.long = some (Sum.inr l)) : longAliases p = l := by
  unfold longAliases
  rw [h]

/-! ## Claim C3: layering of resolution sources -/

/-- Claim C3: values are resolved per parameter by layering sources in a
fixed order with later sources overriding earlier ones — the coerced
default is seeded first (lines 226-233), a bound short alias overrides it
(lines 235-244), bound long aliases override that (lines 246-261), and a
parameter with no aliases consumes the next positional token FIFO
(lines 263-270).  Concretely: `parse("apple carrot", {fruit:{},
vegetable:{}})` binds positionals in order, and a default is used exactly
when no alias is bound.  Generally: a successfully coerced bound short
alias is the final value whatever the default did, and a bound long alias
in turn overrides the short alias. -/
theorem parse_layering_order :
    (parseString "apple carrot" [("fruit", {}), ("vegetable", {})] =
      { args := some [("fruit", Value.str "apple"), ("vegetable", Value.str "carrot")],
        errors := Option.none,
        help := { params := ["<fruit>", "<vegetable>"], options := [] } }) ∧
    (parseString "--fruit apple"
        [("fruit", { long := some (Sum.inl "fruit"), default := some "banana" })] =
      { args := some [("fruit", Value.str "apple")], errors := Option.none,
        help := { params := [], options := ["--fruit <fruit=banana>"] } }) ∧
    (parseString "" [("fruit", { long := some (Sum.inl "fruit"), default := some "banana" })] =
      { args := some [("fruit", Value.str "banana")], errors := Option.none,
        help := { params := [], options := ["--fruit <fruit=banana>"] } }) ∧
    (∀ (key : String) (p : Param) (st : ResolveState) (s : String) (rv v : Value),
      p.short = some s → ¬ s = "" → lookupKey st.raw.pairs s = some rv →
      paramParser p rv = Except.ok v → ¬ v = Value.undef → longAliases p = [] →
      lookupKey (resolveParam key p st).args key = some v) ∧
    (∀ (key : String) (p : Param) (st : ResolveState) (s al : String) (rv1 rv2 v1 v2 : Value),
      p.short = some s → ¬ s = "" → p.long = some (Sum.inr [al]) → ¬ al = s →
      lookupKey st.raw.pairs s = some rv1 → lookupKey st.raw.pairs al = some rv2 →
      paramParser p rv1 = Except.ok v1 → paramParser p rv2 = Except.ok v2 →
      isBoolType p = false → ¬ v2 = Value.undef →
      lookupKey (resolveParam key p st).args key = some v2) := by
  refine ⟨by decide, by decide, by decide, ?_, ?_⟩
  · intro key p st s rv v hs hse hlu hp hv hla
    unfold resolveParam
    have h1 : (applyDefault key p st).raw = st.raw := applyDefault_raw key p st
    rw [applyShort_bound key p (applyDefault key p st) s rv v hs hse (by rw [h1]; exact hlu) hp,
      applyLong_nil key p _ hla,
      applyPositional_skip key p _ (Or.inl (shortTruthy_of_some p s hs hse)),
      applyUnresolved_resolved key p _ v (lookupKey_setKey_self _ _ _) hv]
    exact lookupKey_setKey_self _ _ _
  · intro key p st s al rv1 rv2 v1 v2 hs hse hlong hals hlu1 hlu2 hp1 hp2 hnb hv2
    unfold resolveParam
    have h1 : (applyDefault key p st).raw = st.raw := applyDefault_raw key p st
    rw [applyShort_bound key p (applyDefault key p st) s rv1 v1 hs hse (by rw [h1]; exact hlu1) hp1]
    have hla : longAliases p = [al] := longAliases_of_inr p [al] hlong
    unfold applyLong
    rw [hla]
    simp only [List.foldl_cons, List.foldl_nil]
    rw [applyLongOne_bound key p _ al rv2 v2 (by
        show lookupKey (delKey (applyDefault key p st).raw.pairs s) al = some rv2
        rw [h1, lookupKey_delKey_ne st.raw.pairs s al (fun he => hals he.symm)]
        exact hlu2) hp2 hnb]
    rw [applyPositional_skip key p _ (Or.inl (shortTruthy_of_some p s hs hse)),
      applyUnresolved_resolved key p _ v2 (lookupKey_setKey_self _ _ _) hv2]
    exact lookupKey_setKey_self _ _ _

/-- A short-alias-only parameter and a raw state binding it, plus a
short-and-long parameter with both aliases bound: concrete instances of
the layering claim. -/
def stC3a : ResolveState :=
  { raw := { underscore := [], pairs := [("x", Value.str "7")] },
    args := [], invalid := [], missing := [] }

/-- Raw state binding both a short alias `x` and a long alias `y`. -/
def stC3b : ResolveState :=
  { raw := { underscore := [], pairs := [("x", Value.str "7"), ("y", Value.str "8")] },
    args := [], invalid := [], missing := [] }

/-- Witness for claim C3 at concrete inputs: the bound short alias `x`
overrides any default, and the bound long alias `y` in turn overrides the
short alias. -/
theorem parse_layering_order_witness :
    lookupKey (resolveParam "k" { short := some "x" } stC3a).args "k" = some (Value.str "7") ∧
    lookupKey (resolveParam "k" { short := some "x", long := some (Sum.inr ["y"]) } stC3b).args "k" =
      some (Value.str "8") :=
  ⟨parse_layering_order.2.2.2.1 "k" { short := some "x" } stC3a "x"
      (Value.str "7") (Value.str "7") rfl (by decide) rfl rfl (by decide) rfl,
   parse_layering_order.2.2.2.2 "k" { short := some "x", long := some (Sum.inr ["y"]) } stC3b
      "x" "y" (Value.str "7") (Value.str "8") (Value.str "7") (Value.str "8")
      rfl (by decide) rfl (by decide) rfl rfl rfl rfl rfl (by decide)⟩

/-! ## Claim C4: multiple bound long aliases -/

/-- Look every alias up in the bound-option map, in order. -/
def lookupAll (pairs : List (String × Value)) : List String → Option (List Value)
  | [] => some []
  | q :: rest =>
    match lookupKey pairs q, lookupAll pairs rest with
    | some rv, some rvs => some (rv :: rvs)
    | _, _ => Option.none

/-- Coerce every bound value, in order, all succeeding. -/
def coerceAll (p : Param) : List Value → Option (List Value)
  | [] => some []
  | rv :: rest =>
    match paramParser p rv, coerceAll p rest with
    | Except.ok v, some vs => some (v :: vs)
    | _, _ => Option.none

theorem lookupAll_delKey (pairs : List (String × Value)) (q2 : String) (aliases : List String)
    (h : ¬ q2 ∈ aliases) : lookupAll (delKey pairs q2) aliases = lookupAll pairs aliases := by
  induction aliases with
  | nil => rfl
  | cons q rest ih =>
    have hq : ¬ q2 = q := fun he => h (by simp [he])
    have hrest : ¬ q2 ∈ rest := fun hm => h (by simp [hm])
    simp only [lookupAll, lookupKey_delKey_ne pairs q2 q hq, ih hrest]

theorem lookupAll_length (pairs : List (String × Value)) :
    ∀ (aliases : List String) (rvs : List Value),
      lookupAll pairs aliases = some rvs → rvs.length = aliases.length := by
  intro aliases
  induction aliases with
  | nil =>
    intro rvs h
    simp only [lookupAll] at h
    injection h with h
    simp [← h]
  | cons q rest ih =>
    intro rvs h
    cases hq : lookupKey pairs q with
    | none => simp [lookupAll, hq] at h
    | some rv0 =>
      cases hrest : lookupAll pairs rest with
      | none => simp [lookupAll, hq, hrest] at h
      | some rvs2 =>
        simp only [lookupAll, hq, hrest] at h
        injection h with h
        simp [← h, ih rvs2 hrest]

theorem coerceAll_length (p : Param) :
    ∀ (rvs vs : List Value), coerceAll p rvs = some vs → vs.length = rvs.length := by
  intro rvs
  induction rvs with
  | nil =>
    intro vs h
    simp only [coerceAll] at h
    injection h with h
    simp [← h]
  | cons rv0 rest ih =>
    intro vs h
    cases hp : paramParser p rv0 with
    | error e => simp [coerceAll, hp] at h
    | ok v0 =>
      cases hrest : coerceAll p rest with
      | none => simp [coerceAll, hp, hrest] at h
      | some vs2 =>
        simp only [coerceAll, hp, hrest] at h
        injection h with h
        simp [← h, ih vs2 hrest]

theorem applyLongOne_bound_bool (k : String) (p : Param) (st : ResolveState) (al : String)
    (rv : Value) (hlu : lookupKey st.raw.pairs al = some rv) (hb : isBoolType p = true) :
    applyLongOne k p st al =
      { st with raw := { st.raw with pairs := delKey st.raw.pairs al },
                args := orSetArgs st.args k (Value.bool rv.truthy) } := by
  have ht : p.type = PType.bool := by
    cases h : p.type <;> simp [isBoolType, h] at hb ⊢
  unfold applyLongOne
  simp only [hlu, paramParser, ht, hb]
  simp

theorem truthyO_orSet (args : List (String × Value)) (k : String) (v : Value) :
    truthyO (lookupKey (orSetArgs args k v) k) = (truthyO (lookupKey args k) || v.truthy) := by
  unfold orSetArgs
  cases h : lookupKey args k with
  | none => simp [h, lookupKey_setKey_self, truthyO]
  | some cur =>
    by_cases hc : cur.truthy = true
    · simp [h, hc, truthyO]
    · simp [h, hc, lookupKey_setKey_self, truthyO]

theorem longFold_nonbool (key : String) (p : Param) (hnb : isBoolType p = false) :
    ∀ (aliases : List String) (st : ResolveState) (rvs vs : List Value) (v : Value),
      aliases.Nodup →
      lookupAll st.raw.pairs aliases = some rvs →
      coerceAll p rvs = some vs →
      vs.getLast? = some v →
      lookupKey ((aliases.foldl (fun st2 al => applyLongOne key p st2 al) st)).args key = some v := by
  intro aliases
  induction aliases with
  | nil =>
    intro st rvs vs v hnd hla hco hlast
    simp only [lookupAll] at hla
    injection hla with hla
    subst hla
    simp only [coerceAll] at hco
    injection hco with hco
    subst hco
    simp at hlast
  | cons q rest ih =>
    intro st rvs vs v hnd hla hco hlast
    obtain ⟨hqr, hndr⟩ := List.nodup_cons.mp hnd
    cases hq : lookupKey st.raw.pairs q with
    | none => simp [lookupAll, hq] at hla
    | some rv0 =>
      cases hrest : lookupAll st.raw.pairs rest with
      | none => simp [lookupAll, hq, hrest] at hla
      | some rvs2 =>
        simp only [lookupAll, hq, hrest] at hla
        injection hla with hla
        subst hla
        cases hp0 : paramParser p rv0 with
        | error e => simp [coerceAll, hp0] at hco
        | ok v0 =>
          cases hco2 : coerceAll p rvs2 with
          | none => simp [coerceAll, hp0, hco2] at hco
          | some vs2 =>
            simp only [coerceAll, hp0, hco2] at hco
            injection hco with hco
            subst hco
            rw [List.foldl_cons, applyLongOne_bound key p st q rv0 v0 hq hp0 hnb]
            cases rest with
            | nil =>
              have h1 : rvs2 = [] := by
                simp only [lookupAll] at hrest
                injection hrest with h
                exact h.symm
              subst h1
              have h2 : vs2 = [] := by
                simp only [coerceAll] at hco2
                injection hco2 with h
                exact h.symm
              subst h2
              have h3 : v = v0 := by
                simp at hlast
                exact hlast.symm
              subst h3
              simp only [List.foldl_nil]
              exact lookupKey_setKey_self _ _ _
            | cons q2 rest2 =>
              have hne : vs2 ≠ [] := by
                intro h0
                have hl1 := lookupAll_length st.raw.pairs (q2 :: rest2) rvs2 hrest
                have hl2 := coerceAll_length p rvs2 vs2 hco2
                rw [h0] at hl2
                simp at hl2
                rw [← hl2] at hl1
                simp at hl1
              obtain ⟨w, ws, rfl⟩ := List.exists_cons_of_ne_nil hne
              apply ih _ rvs2 (w :: ws) v hndr ?_ hco2 ?_
              · show lookupAll (delKey st.raw.pairs q) (q2 :: rest2) = some rvs2
                rw [lookupAll_delKey st.raw.pairs q (q2 :: rest2) hqr]
                exact hrest
              · rw [← hlast, List.getLast?_cons_cons]

theorem longFold_bool (key : String) (p : Param) (hb : isBoolType p = true) :
    ∀ (aliases : List String) (st : ResolveState) (rvs : List Value),
      aliases.Nodup →
      lookupAll st.raw.pairs aliases = some rvs →
      truthyO (lookupKey ((aliases.foldl (fun st2 al => applyLongOne key p st2 al) st)).args key) =
        (truthyO (lookupKey st.args key) || rvs.any Value.truthy) := by
  intro aliases
  induction aliases with
  | nil =>
    intro st rvs hnd hla
    simp only [lookupAll] at hla
    injection hla with hla
    subst hla
    simp
  | cons q rest ih =>
    intro st rvs hnd hla
    obtain ⟨hqr, hndr⟩ := List.nodup_cons.mp hnd
    cases hq : lookupKey st.raw.pairs q with
    | none => simp [lookupAll, hq] at hla
    | some rv0 =>
      cases hrest : lookupAll st.raw.pairs rest with
      | none => simp [lookupAll, hq, hrest] at hla
      | some rvs2 =>
        simp only [lookupAll, hq, hrest] at hla
        injection hla with hla
        subst hla
        rw [List.foldl_cons, applyLongOne_bound_bool key p st q rv0 hq hb]
        rw [ih _ rvs2 hndr (by
          show lookupAll (delKey st.raw.pairs q) rest = some rvs2
          rw [lookupAll_delKey st.raw.pairs q rest hqr]
          exact hrest)]
        show (truthyO (lookupKey (orSetArgs st.args key (Value.bool rv0.truthy)) key) || _) = _
        rw [truthyO_orSet]
        simp [Value.truthy, Bool.or_assoc]

/-- Claim C4: when several long aliases of one parameter are bound in the
raw map, each is coerced in declaration order; for a boolean-flag
parameter the coerced booleans are OR-ed together (`args[key] ||= val`,
line 255), while for every other kind the last alias's coerced value
overwrites earlier ones and wins (line 257). -/
theorem parse_long_alias_semantics :
    (∀ (key : String) (p : Param) (aliases : List String) (st : ResolveState)
        (rvs vs : List Value) (v : Value),
      p.long = some (Sum.inr aliases) → isBoolType p = false → aliases.Nodup →
      lookupAll st.raw.pairs aliases = some rvs →
      coerceAll p rvs = some vs → vs.getLast? = some v →
      lookupKey (applyLong key p st).args key = some v) ∧
    (∀ (key : String) (p : Param) (aliases : List String) (st : ResolveState)
        (rvs : List Value),
      p.long = some (Sum.inr aliases) → isBoolType p = true → aliases.Nodup →
      lookupAll st.raw.pairs aliases = some rvs →
      truthyO (lookupKey (applyLong key p st).args key) =
        (truthyO (lookupKey st.args key) || rvs.any Value.truthy)) := by
  constructor
  · intro key p aliases st rvs vs v hlong hnb hnd hla hco hlast
    unfold applyLong
    rw [longAliases_of_inr p aliases hlong]
    exact longFold_nonbool key p hnb aliases st rvs vs v hnd hla hco hlast
  · intro key p aliases st rvs hlong hb hnd hla
    unfold applyLong
    rw [longAliases_of_inr p aliases hlong]
    exact longFold_bool key p hb aliases st rvs hnd hla

/-- Raw state binding the two string aliases `a`, `b`. -/
def stC4a : ResolveState :=
  { raw := { underscore := [], pairs := [("a", Value.str "1"), ("b", Value.str "2")] },
    args := [], invalid := [], missing := [] }

/-- Raw state binding the three boolean aliases of a flag, only `debug`
being set. -/
def stC4b : ResolveState :=
  { raw := { underscore := [],
             pairs := [("verbose", Value.bool false), ("debug", Value.bool true),
                       ("log", Value.bool false)] },
    args := [], invalid := [], missing := [] }

/-- Witness for claim C4 at concrete inputs: with both `a` and `b` bound,
the later alias `b` wins for a string parameter; for a boolean flag with
aliases `verbose`/`debug`/`log` of which only `debug` is set, the OR of
the bound values is `true`. -/
theorem parse_long_alias_semantics_witness :
    lookupKey (applyLong "k" { long := some (Sum.inr ["a", "b"]) } stC4a).args "k" =
      some (Value.str "2") ∧
    truthyO (lookupKey (applyLong "v"
        { long := some (Sum.inr ["verbose", "debug", "log"]), type := PType.bool } stC4b).args "v") =
      true :=
  ⟨parse_long_alias_semantics.1 "k" { long := some (Sum.inr ["a", "b"]) } ["a", "b"] stC4a
      [Value.str "1", Value.str "2"] [Value.str "1", Value.str "2"] (Value.str "2")
      rfl rfl (by decide) (by decide) rfl (by decide),
   (parse_long_alias_semantics.2 "v"
      { long := some (Sum.inr ["verbose", "debug", "log"]), type := PType.bool }
      ["verbose", "debug", "log"] stC4b
      [Value.bool false, Value.bool true, Value.bool false]
      rfl rfl (by decide) (by decide)).trans (by decide)⟩

/-! ## Claim C10: recorded coercion failures persist -/

theorem invalid_mono_applyDefault (k : String) (p : Param) (st : ResolveState) (k2 : String)
    (h : containsKey st.invalid k2 = true) :
    containsKey (applyDefault k p st).invalid k2 = true := by
  unfold applyDefault
  cases hd : p.default with
  | none => exact h
  | some d =>
    by_cases hdd : d = ""
    · simpa [hdd] using h
    · simp only [if_neg hdd]
      cases hp : paramParser p (Value.str d) with
      | error e => exact containsKey_setKey_mono _ _ _ _ h
      | ok v => exact h

theorem invalid_mono_applyShort (k : String) (p : Param) (st : ResolveState) (k2 : String)
    (h : containsKey st.invalid k2 = true) :
    containsKey (applyShort k p st).invalid k2 = true := by
  unfold applyShort
  cases hs : p.short with
  | none => exact h
  | some s =>
    by_cases hse : s = ""
    · simpa [hse] using h
    · simp only [if_neg hse]
      cases hl : lookupKey st.raw.pairs s with
      | none => exact h
      | some rv =>
        cases hp : paramParser p rv with
        | error e =>
          simp only [hp]
          exact containsKey_setKey_mono _ _ _ _ h
        | ok v =>
          simp only [hp]
          exact h

theorem invalid_mono_applyLongOne (k : String) (p : Param) (st : ResolveState) (al : String)
    (k2 : String) (h : containsKey st.invalid k2 = true) :
    containsKey (applyLongOne k p st al).invalid k2 = true := by
  unfold applyLongOne
  cases hl : lookupKey st.raw.pairs al with
  | none => exact h
  | some rv =>
    cases hp : paramParser p rv with
    | error e =>
      simp only [hp]
      exact containsKey_setKey_mono _ _ _ _ h
    | ok v =>
      simp only [hp]
      by_cases hb : isBoolType p = true
      · simpa [hb] using h
      · simp only [hb]
        simpa using h

theorem invalid_mono_applyLong (k : String) (p : Param) (st : ResolveState) (k2 : String)
    (h : containsKey st.invalid k2 = true) :
    containsKey (applyLong k p st).invalid k2 = true := by
  unfold applyLong
  generalize longAliases p = aliases
  induction aliases generalizing st with
  | nil => exact h
  | cons q rest ih =>
    rw [List.foldl_cons]
    exact ih _ (invalid_mono_applyLongOne k p st q k2 h)

theorem invalid_mono_applyPositional (k : String) (p : Param) (st : ResolveState) (k2 : String)
    (h : containsKey st.invalid k2 = true) :
    containsKey (applyPositional k p st).invalid k2 = true := by
  unfold applyPositional
  by_cases ht : shortTruthy p = true ∨ longTruthy p = true
  · simpa [ht] using h
  · simp only [if_neg ht]
    cases hu : st.raw.underscore with
    | nil => exact h
    | cons a rest =>
      cases hp : paramParser p (Value.str a) with
      | error e =>
        simp only [hp]
        exact containsKey_setKey_mono _ _ _ _ h
      | ok v =>
        simp only [hp]
        exact h

theorem invalid_mono_applyUnresolved (k : String) (p : Param) (st : ResolveState) (k2 : String)
    (h : containsKey st.invalid k2 = true) :
    containsKey (applyUnresolved k p st).invalid k2 = true := by
  unfold applyUnresolved
  cases hl : lookupKey st.args k with
  | none =>
    by_cases hb : isBoolType p = true
    · simpa [hb] using h
    · by_cases ho : p.optional = true <;> simp [hb, ho] <;> exact h
  | some v =>
    by_cases hv : v = Value.undef
    · by_cases hb : isBoolType p = true
      · simpa [hv, hb] using h
      · by_cases ho : p.optional = true <;> simp [hv, hb, ho] <;> exact h
    · simpa [hv] using h

theorem invalid_mono_resolveParam (k : String) (p : Param) (st : ResolveState) (k2 : String)
    (h : containsKey st.invalid k2 = true) :
    containsKey (resolveParam k p st).invalid k2 = true := by
  unfold resolveParam
  exact invalid_mono_applyUnresolved _ _ _ _ (invalid_mono_applyPositional _ _ _ _
    (invalid_mono_applyLong _ _ _ _ (invalid_mono_applyShort _ _ _ _
      (invalid_mono_applyDefault _ _ _ _ h))))

theorem invalid_mono_resolveFold (P : Params) :
    ∀ (st : ResolveState) (k2 : String), containsKey st.invalid k2 = true →
      containsKey ((P.foldl (fun st2 kp => resolveParam kp.1 kp.2 st2) st)).invalid k2 = true := by
  induction P with
  | nil => intro st k2 h; exact h
  | cons kp P ih =>
    intro st k2 h
    rw [List.foldl_cons]
    exact ih _ k2 (invalid_mono_resolveParam kp.1 kp.2 st k2 h)

theorem containsKey_ne_nil {α : Type} (l : List (String × α)) (k : String)
    (h : containsKey l k = true) : ¬ l = [] := by
  intro h0
  subst h0
  simp [containsKey, lookupKey] at h

/-- A user coercion that fails on the raw string `bad` and succeeds on
everything else. -/
def badParser : Value → Except ParseError Value :=
  fun v =>
    match v with
    | Value.str s =>
      if s = "bad" then Except.error { message := "bad value" } else Except.ok (Value.str s)
    | v => Except.ok v

/-- A schema whose one parameter has a default that fails coercion and a
short alias that succeeds. -/
def invalidDefaultSchema : Params :=
  [("num", { short := some "n", default := some "bad", type := PType.custom badParser })]

/-- A raw splitter output binding the short alias `n` to a value the
coercion accepts. -/
def invalidRaw : Raw := { underscore := [], pairs := [("n", Value.str "good")] }

/-- Claim C10: an entry recorded under `invalid` by any resolution source
is never removed by a later source that coerces successfully — the
resolution pass only ever inserts into `invalid` (lines 229, 240, 253) —
and any surviving entry forces the error outcome (line 291), even when
the parameter's field itself ended up holding a valid value from a later
source.  Concretely, a failing default plus a succeeding short alias
yields a null result although `args.num` resolved to the alias's value. -/
theorem parse_invalid_persists :
    (∀ (key : String) (p : Param) (st : ResolveState) (k2 : String),
      containsKey st.invalid k2 = true →
      containsKey (resolveParam key p st).invalid k2 = true) ∧
    (∀ (params : Params) (raw : Raw) (k2 : String),
      containsKey (resolveState params raw).invalid k2 = true →
      (parseCore params raw).args = Option.none) ∧
    ((parseCore invalidDefaultSchema invalidRaw).args = Option.none ∧
     lookupKey (resolveState invalidDefaultSchema invalidRaw).args "num" = some (Value.str "good") ∧
     containsKey (resolveState invalidDefaultSchema invalidRaw).invalid "num" = true) := by
  refine ⟨invalid_mono_resolveParam, ?_, by decide, by decide, by decide⟩
  intro params raw k2 h
  have hne := containsKey_ne_nil _ _ h
  have hlen : (finishErrors (resolveState params raw)).invalid.length > 0 := by
    have : (resolveState params raw).invalid.length > 0 := List.length_pos.mpr hne
    simpa [finishErrors] using this
  simp [parseCore, Or.inl hlen]

/-- A resolution state that already carries an `invalid` entry. -/
def stC10 : ResolveState :=
  { raw := { underscore := [], pairs := [] }, args := [],
    invalid := [("bad", { message := "m" })], missing := [] }

/-- Witness for claim C10: the pre-existing `invalid` entry survives a
full parameter resolution, and the failing-default schema yields a null
result. -/
theorem parse_invalid_persists_witness :
    containsKey (resolveParam "k" ({} : Param) stC10).invalid "bad" = true ∧
    (parseCore invalidDefaultSchema invalidRaw).args = Option.none :=
  ⟨parse_invalid_persists.1 "k" {} stC10 "bad" (by decide),
   parse_invalid_persists.2.1 invalidDefaultSchema invalidRaw "num" (by decide)⟩
